import Mathlib

/-!
# Global-state exposure routes (`routes/expose_global_state.go`)

A shallow embedding of the four HTTP handlers of `expose_global_state.go`
and of their helpers.  A Go handler returns nothing and acts on the response
writer `ww`, so every handler is embedded as the list of effects it
performs, in program order.  Collaborators that live outside the file (the
JSON codec, the mempool view, the whitelist walk, the response projection,
the hash decoder, the Base58 encoder) are fields of `APIServer`.
-/

set_option autoImplicit false

namespace Routes

/-! ## Go values -/

/-- A Go slice: `none` is the nil slice, `some l` a non-nil slice holding `l`. -/
abbrev GoSlice (α : Type) := Option (List α)

/-- A Go map: `none` is the nil map, `some l` a non-nil map whose entries are
the pairs of `l` (one pair per key). -/
abbrev GoMap (κ ν : Type) := Option (List (κ × ν))

/-- The payload of a moderation record, Go `[]byte`. -/
abbrev Bytes := List Nat

/-- Go `append(s, x)`: the result is never nil. -/
def goAppend {α : Type} (s : GoSlice α) (x : α) : GoSlice α :=
  some (s.getD [] ++ [x])

/-- The entries a Go `for k, v := range m` visits; a nil map has none. -/
def goRange {κ ν : Type} (m : GoMap κ ν) : List (κ × ν) :=
  m.getD []

/-- Go `m[k] = v` on a non-nil map: overwrite the entry of `k` when there is
one, add an entry otherwise. -/
def goMapSet {κ ν : Type} [DecidableEq κ] (m : List (κ × ν)) (k : κ) (v : ν) :
    List (κ × ν) :=
  if m.any (fun p => decide (p.1 = k)) then
    m.map (fun p => if p.1 = k then (k, v) else p)
  else
    m ++ [(k, v)]

/-- Go `m[k]` with the comma-ok form: the value stored under `k`, if any. -/
def goMapGet {κ ν : Type} [DecidableEq κ] (m : GoMap κ ν) (k : κ) : Option ν :=
  ((goRange m).find? (fun p => decide (p.1 = k))).map Prod.snd

/-- Go `len(m)`. -/
def goMapLen {κ ν : Type} (m : GoMap κ ν) : Nat :=
  (goRange m).length

/-! ## Request, response data and effects -/

/-- The request body of `GetGlobalFeed` (source lines 57-61). -/
structure GetGlobalFeedRequest where
  PostHashHex : String
  NumToFetch : Int
  MediaRequired : Bool
  deriving DecidableEq, Repr

/-- The values the handlers hand to `WriteGlobalStateDataToResponse`
(its `data interface{}` argument). -/
inductive Data (PKID PostEntryResponse : Type) where
  /-- The map `fes.VerifiedUsernameToPKIDMap`, a `map[string]*lib.PKID`. -/
  | usernames (m : GoMap String PKID)
  /-- The result of `makeMapJSONEncodable`, a `map[string][]byte`. -/
  | publicKeys (m : GoMap String Bytes)
  /-- The page of `GetGlobalFeed`, a `[]*PostEntryResponse`. -/
  | posts (s : GoSlice PostEntryResponse)
  deriving DecidableEq, Repr

/-- The behaviour of `encoding/json` on the element types, which the file
does not define: how a non-nil map and how one feed item are rendered. -/
structure JSONCodec (PKID PostEntryResponse : Type) where
  usernamesObject : List (String × PKID) → Except String String
  publicKeysObject : List (String × Bytes) → Except String String
  postEntryResponse : PostEntryResponse → Except String String

/-- The items of a JSON array, rendered one by one; the first failure is the
failure of the whole array. -/
def encodeItems {α : Type} (enc : α → Except String String) : List α → Except String (List String)
  | [] => .ok []
  | x :: xs =>
      match enc x with
      | .error err => .error err
      | .ok s => (encodeItems enc xs).map (fun ss => s :: ss)

/-- What `json.NewEncoder(ww).Encode(data)` produces: a nil map or nil slice
is the JSON value `null`, a non-nil slice is a JSON array of its items, and
every value is followed by a newline. -/
def jsonEncode {PKID PostEntryResponse : Type} (codec : JSONCodec PKID PostEntryResponse) :
    Data PKID PostEntryResponse → Except String String
  | .usernames none => .ok "null\n"
  | .usernames (some m) => (codec.usernamesObject m).map (fun s => s ++ "\n")
  | .publicKeys none => .ok "null\n"
  | .publicKeys (some m) => (codec.publicKeysObject m).map (fun s => s ++ "\n")
  | .posts none => .ok "null\n"
  | .posts (some l) =>
      (encodeItems codec.postEntryResponse l).map (fun ss => "[" ++ ",".intercalate ss ++ "]\n")

/-- The effects of a handler, in the order the code performs them. -/
inductive Effect (PKID BlockHash PostEntry PostEntryResponse UtxoView : Type) where
  /-- Call of `_AddNotFoundError(ww, msg)`. -/
  | notFound (msg : String)
  /-- Call of `_AddBadRequestError(ww, msg)`. -/
  | badRequest (msg : String)
  /-- Call of `decoder.Decode(&requestData)`: the request body is read and parsed. -/
  | decodeBody
  /-- Call of `GetPostHashFromPostHashHex(hex)`. -/
  | decodeCursor (hex : String)
  /-- Call of `fes.backendServer.GetMempool().GetAugmentedUniversalView()`. -/
  | fetchView
  /-- Call of `fes.GetPostEntriesForGlobalWhitelist(start, nil, numToFetch, view, mediaRequired)`. -/
  | walk (startPostHash : Option BlockHash) (numToFetch : Int) (utxoView : UtxoView)
      (mediaRequired : Bool)
  /-- Call of `fes._postEntryToResponse(postEntry, false, fes.Params, utxoView, nil, 2)`. -/
  | project (postEntry : PostEntry)
  /-- A successful `json.NewEncoder(ww).Encode(data)`: `body` is written to `ww`. -/
  | write (data : Data PKID PostEntryResponse) (body : String)
  deriving DecidableEq, Repr

/-- The receiver `fes *APIServer` together with the collaborators the file
calls but does not define.  `Request` is what `req.Body` carries. -/
structure APIServer (Request PKID BlockHash PostEntry PostEntryResponse UtxoView : Type) where
  /-- The flag `fes.Config.ExposeGlobalState`. -/
  ExposeGlobalState : Bool
  VerifiedUsernameToPKIDMap : GoMap String PKID
  BlacklistedPKIDMap : GoMap PKID Bytes
  GraylistedPKIDMap : GoMap PKID Bytes
  /-- The encoder `lib.PkToString(k.ToBytes(), fes.Params)`. -/
  PkToString : PKID → String
  /-- The decoder `json.NewDecoder(io.LimitReader(req.Body, MaxRequestBodySizeBytes)).Decode`. -/
  decodeRequest : Request → Except String GetGlobalFeedRequest
  GetPostHashFromPostHashHex : String → Except String BlockHash
  GetAugmentedUniversalView : Except String UtxoView
  /-- The walk, called with `readerPK = nil`; it returns the post entries and
  the error (the two middle results are discarded by the caller). -/
  GetPostEntriesForGlobalWhitelist :
    Option BlockHash → Int → UtxoView → Bool → List PostEntry × Option String
  /-- The projection, called with `addGlobalFeedBool = false`, no reader and
  `maxDepth = 2`. -/
  _postEntryToResponse : PostEntry → UtxoView → Except String PostEntryResponse
  json : JSONCodec PKID PostEntryResponse

section Handlers

variable {Request PKID BlockHash PostEntry PostEntryResponse UtxoView : Type}

/-- The effect type of a server. -/
abbrev APIServer.Eff
    (_fes : APIServer Request PKID BlockHash PostEntry PostEntryResponse UtxoView) : Type :=
  Effect PKID BlockHash PostEntry PostEntryResponse UtxoView

/-- The helper `WriteGlobalStateDataToResponse` (source lines 49-55). -/
def WriteGlobalStateDataToResponse
    (fes : APIServer Request PKID BlockHash PostEntry PostEntryResponse UtxoView)
    (data : Data PKID PostEntryResponse) (functionName : String) : List fes.Eff :=
  match jsonEncode fes.json data with
  | .error err =>
      [.badRequest (functionName ++ ": Problem encoding response as JSON: " ++ err)]
  | .ok body => [.write data body]

/-- The handler `GetVerifiedUsernameMap` (source lines 11-18). -/
def GetVerifiedUsernameMap
    (fes : APIServer Request PKID BlockHash PostEntry PostEntryResponse UtxoView)
    (_req : Request) : List fes.Eff :=
  if !fes.ExposeGlobalState then
    [.notFound "Global state not exposed"]
  else
    WriteGlobalStateDataToResponse fes (.usernames fes.VerifiedUsernameToPKIDMap)
      "GetVerifiedUsernameMap"

/-- The method `makeMapJSONEncodable` (source lines 20-27): a fresh non-nil map
receives one assignment per entry of the argument. -/
def makeMapJSONEncodable
    (fes : APIServer Request PKID BlockHash PostEntry PostEntryResponse UtxoView)
    (restrictedKeysMap : GoMap PKID Bytes) : GoMap String Bytes :=
  some ((goRange restrictedKeysMap).foldl
    (fun outputMap kv => goMapSet outputMap (fes.PkToString kv.1) kv.2) [])

/-- The handler `GetBlacklistedPublicKeys` (source lines 29-37). -/
def GetBlacklistedPublicKeys
    (fes : APIServer Request PKID BlockHash PostEntry PostEntryResponse UtxoView)
    (_req : Request) : List fes.Eff :=
  if !fes.ExposeGlobalState then
    [.notFound "Global state not exposed"]
  else
    WriteGlobalStateDataToResponse fes
      (.publicKeys (makeMapJSONEncodable fes fes.BlacklistedPKIDMap)) "GetBlacklistedPublicKeys"

/-- The handler `GetGraylistedPublicKeys` (source lines 39-47). -/
def GetGraylistedPublicKeys
    (fes : APIServer Request PKID BlockHash PostEntry PostEntryResponse UtxoView)
    (_req : Request) : List fes.Eff :=
  if !fes.ExposeGlobalState then
    [.notFound "Global state not exposed"]
  else
    WriteGlobalStateDataToResponse fes
      (.publicKeys (makeMapJSONEncodable fes fes.GraylistedPKIDMap)) "GetGraylistedPublicKeys"

/-- The loop of `GetGlobalFeed` over `postEntries` and the final write
(source lines 106-117); `postEntryResponses` is the slice built so far. -/
def projectAndWrite
    (fes : APIServer Request PKID BlockHash PostEntry PostEntryResponse UtxoView)
    (utxoView : UtxoView) :
    List PostEntry → GoSlice PostEntryResponse → List fes.Eff
  | [], postEntryResponses =>
      WriteGlobalStateDataToResponse fes (.posts postEntryResponses) "GetGlobalFeed"
  | postEntry :: rest, postEntryResponses =>
      .project postEntry ::
        match fes._postEntryToResponse postEntry utxoView with
        | .error _ =>
            [.badRequest
              "GetGlobalFeed: Error converting post entry to respones: %!v(MISSING)"]
        | .ok postEntryResponse =>
            projectAndWrite fes utxoView rest (goAppend postEntryResponses postEntryResponse)

/-- The page size of `GetGlobalFeed` (source lines 88-92). -/
def numToFetchOf (requestData : GetGlobalFeedRequest) : Int :=
  if requestData.NumToFetch ≠ 0 then requestData.NumToFetch else 50

/-- The body of `GetGlobalFeed` from the fetch of the mempool view on (source
lines 94-117); the error of the walk is assigned to `err` and never read. -/
def feedFromView
    (fes : APIServer Request PKID BlockHash PostEntry PostEntryResponse UtxoView)
    (requestData : GetGlobalFeedRequest) (startPostHash : Option BlockHash) : List fes.Eff :=
  let numToFetch := numToFetchOf requestData
  .fetchView ::
    match fes.GetAugmentedUniversalView with
    | .error _ => [.badRequest "GetGlobalFeed: Error fetching mempool view"]
    | .ok utxoView =>
        let postEntries := (fes.GetPostEntriesForGlobalWhitelist startPostHash numToFetch
          utxoView requestData.MediaRequired).1
        .walk startPostHash numToFetch utxoView requestData.MediaRequired ::
          projectAndWrite fes utxoView postEntries none

/-- The body of `GetGlobalFeed` once the request is decoded (source lines 78-117):
the cursor is decoded when `PostHashHex` is not empty. -/
def feedFromRequest
    (fes : APIServer Request PKID BlockHash PostEntry PostEntryResponse UtxoView)
    (requestData : GetGlobalFeedRequest) : List fes.Eff :=
  if requestData.PostHashHex ≠ "" then
    .decodeCursor requestData.PostHashHex ::
      match fes.GetPostHashFromPostHashHex requestData.PostHashHex with
      | .error err => [.badRequest ("GetGlobalFeed: " ++ err)]
      | .ok startPostHash => feedFromView fes requestData (some startPostHash)
  else
    feedFromView fes requestData none

/-- The handler `GetGlobalFeed` (source lines 65-118). -/
def GetGlobalFeed
    (fes : APIServer Request PKID BlockHash PostEntry PostEntryResponse UtxoView)
    (req : Request) : List fes.Eff :=
  if !fes.ExposeGlobalState then
    [.notFound "Global state not exposed"]
  else
    .decodeBody ::
      match fes.decodeRequest req with
      | .error err => [.badRequest ("GetGlobalFeed: Problem parsing request body: " ++ err)]
      | .ok requestData => feedFromRequest fes requestData

/-- The effects that precede the walk: the body is decoded, the cursor is
decoded when `PostHashHex` is not empty, and the view is fetched. -/
def beforeWalk (requestData : GetGlobalFeedRequest) :
    List (Effect PKID BlockHash PostEntry PostEntryResponse UtxoView) :=
  .decodeBody ::
    ((if requestData.PostHashHex ≠ "" then [.decodeCursor requestData.PostHashHex] else []) ++
      [.fetchView])

/-- The page a call wrote to the response, if it wrote one: the items of the
first `posts` value written (a nil slice has no items). -/
def writtenPosts :
    List (Effect PKID BlockHash PostEntry PostEntryResponse UtxoView) →
      Option (List PostEntryResponse)
  | [] => none
  | .write (.posts s) _ :: _ => some (s.getD [])
  | _ :: rest => writtenPosts rest

/-- Whether a call wrote any data to the response. -/
def wroteData (trace : List (Effect PKID BlockHash PostEntry PostEntryResponse UtxoView)) : Bool :=
  trace.any fun
    | .write _ _ => true
    | _ => false

/-- Whether a call reported an error (not found or bad request). -/
def reportedError (trace : List (Effect PKID BlockHash PostEntry PostEntryResponse UtxoView)) :
    Bool :=
  trace.any fun
    | .notFound _ => true
    | .badRequest _ => true
    | _ => false

/-! ## The whitelist walk and the pagination client -/

/-- The part of the walk order that lies strictly after the first element
whose hash is `cursor`. -/
def walkAfter {ε η : Type} [DecidableEq η] (hashOf : ε → η) (cursor : η) : List ε → List ε
  | [] => []
  | e :: rest => if hashOf e = cursor then rest else walkAfter hashOf cursor rest

/-- Modelled from the spec: `GetPostEntriesForGlobalWhitelist` is defined in
another file of the repository, which is not part of the sources at hand.
Section 4.3, steps 2 to 4: the walk follows the globally ordered whitelist
source `order`; with a cursor it starts strictly after the element matching
the cursor, and at the start of the feed if no element matches; a candidate
is skipped if media is required and its media flag is false; the walk stops
once `pageSize` accepted items are collected or the source is exhausted. -/
def specWalk {ε η : Type} [DecidableEq η] (hashOf : ε → η) (hasMedia : ε → Bool)
    (order : List ε) (cursor : Option η) (pageSize : Int) (mediaRequiredOnly : Bool) : List ε :=
  let start :=
    match cursor with
    | none => order
    | some c => if order.any (fun e => decide (hashOf e = c)) then walkAfter hashOf c order
        else order
  (start.filter (fun e => !mediaRequiredOnly || hasMedia e)).take pageSize.toNat

/-- The pagination client of the feed: call `GetGlobalFeed` with the cursor,
stop at the first empty page, otherwise continue from the hash of the last
item of the page (`hexOf` reads `PostHashHex` off a response item); the
pages are concatenated.  `none` when a call writes no page or when `fuel`
calls were not enough. -/
def paginate
    (fes : APIServer Request PKID BlockHash PostEntry PostEntryResponse UtxoView)
    (mkRequest : GetGlobalFeedRequest → Request) (hexOf : PostEntryResponse → String)
    (numToFetch : Int) (mediaRequired : Bool) : Nat → String → Option (List PostEntryResponse)
  | 0, _ => none
  | fuel + 1, cursor =>
      match writtenPosts (GetGlobalFeed fes (mkRequest ⟨cursor, numToFetch, mediaRequired⟩)) with
      | none => none
      | some page =>
          match page.getLast? with
          | none => some []
          | some last =>
              (paginate fes mkRequest hexOf numToFetch mediaRequired fuel (hexOf last)).map
                (fun more => page ++ more)

/-- The setting of the pagination property: one fixed snapshot `view` whose
whitelist source is `order`, with unique content hashes; the walk of the
server is the walk of the spec over `order`; every item of `order` projects
to `proj`, the projection can be rendered, and the `PostHashHex` of the
projection is a non-empty string that decodes to the hash of the item. -/
structure PaginationSetting [DecidableEq BlockHash]
    (fes : APIServer Request PKID BlockHash PostEntry PostEntryResponse UtxoView)
    (mkRequest : GetGlobalFeedRequest → Request) (view : UtxoView) (order : List PostEntry)
    (hashOf : PostEntry → BlockHash) (hasMedia : PostEntry → Bool)
    (proj : PostEntry → PostEntryResponse) (hexOf : PostEntryResponse → String) : Prop where
  exposed : fes.ExposeGlobalState = true
  decodes : ∀ r, fes.decodeRequest (mkRequest r) = .ok r
  snapshot : fes.GetAugmentedUniversalView = .ok view
  walks : ∀ c n m, (fes.GetPostEntriesForGlobalWhitelist c n view m).1 =
    specWalk hashOf hasMedia order c n m
  unique : (order.map hashOf).Nodup
  projects : ∀ e ∈ order, fes._postEntryToResponse e view = .ok (proj e)
  renders : ∀ e ∈ order, ∃ s, fes.json.postEntryResponse (proj e) = .ok s
  cursors : ∀ e ∈ order, hexOf (proj e) ≠ "" ∧
    fes.GetPostHashFromPostHashHex (hexOf (proj e)) = .ok (hashOf e)

end Handlers

/-! ## A small concrete server -/

namespace Example

/-- A post of the example: its hash (as hex) and its media flag. -/
structure Post where
  PostHash : String
  HasMedia : Bool
  deriving DecidableEq, Repr

/-- The example server.  A request is the outcome of decoding its body, a
PKID is a string and its public form is that string after the prefix `BC`,
the view is the whitelist order, the walk is the walk of the spec, and a post
whose hash is `??` cannot be projected. -/
def server (order : List Post) :
    APIServer (Except String GetGlobalFeedRequest) String String Post Post (List Post) where
  ExposeGlobalState := true
  VerifiedUsernameToPKIDMap := some [("alice", "k1")]
  BlacklistedPKIDMap := some [("k1", [1]), ("k2", [])]
  GraylistedPKIDMap := none
  PkToString := fun k => "BC" ++ k
  decodeRequest := fun req => req
  GetPostHashFromPostHashHex := fun hex =>
    if hex.length = 1 then .ok hex else .error "invalid post hash"
  GetAugmentedUniversalView := .ok order
  GetPostEntriesForGlobalWhitelist := fun c n view m =>
    (specWalk Post.PostHash Post.HasMedia view c n m, none)
  _postEntryToResponse := fun e _ =>
    if e.PostHash = "??" then .error "no such post" else .ok e
  json :=
    { usernamesObject := fun _ => .ok "usernames"
      publicKeysObject := fun _ => .ok "publicKeys"
      postEntryResponse := fun r => .ok r.PostHash }

/-- The example server with the exposure flag off. -/
def hiddenServer (order : List Post) :
    APIServer (Except String GetGlobalFeedRequest) String String Post Post (List Post) :=
  { server order with ExposeGlobalState := false }

/-- The example server with a walk that fails: it returns no post and an error. -/
def brokenWalkServer (order : List Post) :
    APIServer (Except String GetGlobalFeedRequest) String String Post Post (List Post) :=
  { server order with
    GetPostEntriesForGlobalWhitelist := fun _ _ _ _ => ([], some "walk failed") }

/-- The walk order `[A, B, C, D]` of the end-to-end scenario, no media. -/
def abcd : List Post :=
  [⟨"A", false⟩, ⟨"B", false⟩, ⟨"C", false⟩, ⟨"D", false⟩]

end Example

section Theorems

variable {Request PKID BlockHash PostEntry PostEntryResponse UtxoView : Type}

/-! ## The walk of the spec -/

section Walk

variable {ε η : Type} [DecidableEq η] (hashOf : ε → η)

/-- After the only element with the hash of `x`, what remains is what follows `x`. -/
theorem walkAfter_append_cons (front back : List ε) (x : ε)
    (hfront : ∀ a ∈ front, hashOf a ≠ hashOf x) :
    walkAfter hashOf (hashOf x) (front ++ x :: back) = back := by
  induction front with
  | nil => simp [walkAfter]
  | cons a front ih =>
    have ha : hashOf a ≠ hashOf x := hfront a (List.mem_cons_self _ _)
    simp only [List.cons_append, walkAfter, ha, if_false]
    exact ih (fun b hb => hfront b (List.mem_cons_of_mem _ hb))

/-- What remains after a cursor is part of the walk order. -/
theorem walkAfter_sublist (c : η) (l : List ε) : (walkAfter hashOf c l).Sublist l := by
  induction l with
  | nil => exact List.Sublist.refl _
  | cons a l ih =>
    unfold walkAfter
    split
    · exact List.sublist_cons_self a l
    · exact ih.trans (List.sublist_cons_self a l)

/-- Filtering commutes with resuming after an accepted element, when hashes
are unique. -/
theorem filter_walkAfter (p : ε → Bool) (l : List ε) (hnd : (l.map hashOf).Nodup)
    (x : ε) (hx : x ∈ l) (hp : p x = true) :
    (walkAfter hashOf (hashOf x) l).filter p = walkAfter hashOf (hashOf x) (l.filter p) := by
  induction l with
  | nil => simp at hx
  | cons y t ih =>
    rw [List.map_cons, List.nodup_cons] at hnd
    by_cases hy : hashOf y = hashOf x
    · have hxy : x = y := by
        rcases List.mem_cons.1 hx with h | h
        · exact h
        · exact absurd (hy ▸ List.mem_map.2 ⟨x, h, rfl⟩) hnd.1
      subst hxy
      simp [walkAfter, List.filter_cons, hp]
    · have hxt : x ∈ t := by
        rcases List.mem_cons.1 hx with h | h
        · exact absurd (h ▸ rfl) hy
        · exact h
      by_cases hpy : p y = true
      · simp [walkAfter, List.filter_cons, hy, hpy, ih hnd.2 hxt]
      · simp [walkAfter, List.filter_cons, hy, hpy, ih hnd.2 hxt]

/-- Resuming after the last item of a page leaves exactly what the page did
not take. -/
theorem walkAfter_last_of_take (all front rest : List ε) (hall : all = front ++ rest)
    (hnd : (all.map hashOf).Nodup) (k : Nat) (x : ε)
    (hlast : (rest.take k).getLast? = some x) :
    walkAfter hashOf (hashOf x) all = rest.drop k := by
  obtain ⟨init, hinit⟩ := List.getLast?_eq_some_iff.1 hlast
  have hsplit : all = (front ++ init) ++ x :: rest.drop k := by
    have hrest : init ++ [x] ++ rest.drop k = rest := by
      rw [← hinit]
      exact List.take_append_drop k rest
    rw [hall]
    nth_rewrite 1 [← hrest]
    simp
  rw [hsplit] at hnd ⊢
  apply walkAfter_append_cons
  intro a ha heq
  rw [List.map_append, List.map_cons, List.nodup_append] at hnd
  exact hnd.2.2 (List.mem_map.2 ⟨a, ha, rfl⟩) (heq ▸ List.mem_cons_self _ _)

/-- The entries the walk returns are entries of the walk order. -/
theorem specWalk_subset (hasMedia : ε → Bool) (order : List ε) (cursor : Option η)
    (pageSize : Int) (media : Bool) :
    ∀ e ∈ specWalk hashOf hasMedia order cursor pageSize media, e ∈ order := by
  intro e he
  unfold specWalk at he
  have h1 := List.mem_of_mem_take he
  have h2 := List.mem_of_mem_filter h1
  cases cursor with
  | none => exact h2
  | some c =>
    simp only at h2
    split at h2
    · exact (walkAfter_sublist hashOf c order).subset h2
    · exact h2

/-- The walk from the start of the feed. -/
theorem specWalk_none (hasMedia : ε → Bool) (order : List ε) (pageSize : Int) (media : Bool) :
    specWalk hashOf hasMedia order none pageSize media =
      ((order.filter (fun e => !media || hasMedia e))).take pageSize.toNat := rfl

/-- The walk from the hash of an accepted element of the walk order. -/
theorem specWalk_some (hasMedia : ε → Bool) (order : List ε) (hnd : (order.map hashOf).Nodup)
    (pageSize : Int) (media : Bool) (x : ε) (hx : x ∈ order)
    (hacc : (!media || hasMedia x) = true) :
    specWalk hashOf hasMedia order (some (hashOf x)) pageSize media =
      (walkAfter hashOf (hashOf x) (order.filter (fun e => !media || hasMedia e))).take
        pageSize.toNat := by
  have hany : order.any (fun e => decide (hashOf e = hashOf x)) = true := by
    rw [List.any_eq_true]
    exact ⟨x, hx, by simp⟩
  simp only [specWalk, hany, if_true]
  rw [filter_walkAfter hashOf _ order hnd x hx hacc]

end Walk

/-! ## Moderation maps -/

theorem goMapSet_of_fresh {κ ν : Type} [DecidableEq κ] (m : List (κ × ν)) (k : κ) (v : ν)
    (hfresh : ∀ p ∈ m, p.1 ≠ k) : goMapSet m k v = m ++ [(k, v)] := by
  have hany : m.any (fun p => decide (p.1 = k)) = false := by
    rw [List.any_eq_false]
    intro p hp
    simpa using hfresh p hp
  simp [goMapSet, hany]

/-- Assigning entries whose keys are pairwise distinct and absent from the
map appends them, in the order of the assignments. -/
theorem foldl_goMapSet_of_fresh {κ κ' ν : Type} [DecidableEq κ'] (enc : κ → κ')
    (l : List (κ × ν)) (acc : List (κ' × ν))
    (hnd : (l.map (fun kv => enc kv.1)).Nodup)
    (hdis : ∀ p ∈ acc, ∀ q ∈ l, p.1 ≠ enc q.1) :
    l.foldl (fun out kv => goMapSet out (enc kv.1) kv.2) acc =
      acc ++ l.map (fun kv => (enc kv.1, kv.2)) := by
  induction l generalizing acc with
  | nil => simp
  | cons kv rest ih =>
    rw [List.map_cons, List.nodup_cons] at hnd
    have hfresh : ∀ p ∈ acc, p.1 ≠ enc kv.1 := fun p hp => hdis p hp kv (List.mem_cons_self _ _)
    rw [List.foldl_cons, goMapSet_of_fresh acc _ _ hfresh, ih _ hnd.2]
    · simp
    · intro p hp q hq
      rcases List.mem_append.1 hp with hp | hp
      · exact hdis p hp q (List.mem_cons_of_mem _ hq)
      · rw [List.mem_singleton] at hp
        subst hp
        intro heq
        exact hnd.1 (List.mem_map.2 ⟨q, hq, heq.symm⟩)

/-- In a list of entries with distinct keys, looking a key up finds the value
of the entry that carries it. -/
theorem find?_of_mem_of_nodup {κ ν : Type} [DecidableEq κ] (l : List (κ × ν))
    (hnd : (l.map Prod.fst).Nodup) (k : κ) (v : ν) (hmem : (k, v) ∈ l) :
    (l.find? (fun p => decide (p.1 = k))).map Prod.snd = some v := by
  induction l with
  | nil => simp at hmem
  | cons p rest ih =>
    rw [List.map_cons, List.nodup_cons] at hnd
    rcases List.mem_cons.1 hmem with hp | hp
    · subst hp
      simp
    · have hne : p.1 ≠ k := by
        intro heq
        exact hnd.1 (heq ▸ List.mem_map.2 ⟨(k, v), hp, rfl⟩)
      simp [List.find?_cons, hne, ih hnd.2 hp]

/-- The result of `makeMapJSONEncodable` when the encoder is injective on
the keys of the map: the entries of the map, each under its encoded key. -/
theorem makeMapJSONEncodable_eq
    (fes : APIServer Request PKID BlockHash PostEntry PostEntryResponse UtxoView)
    (m : GoMap PKID Bytes)
    (hkeys : ((goRange m).map Prod.fst).Nodup)
    (hinj : ∀ k ∈ (goRange m).map Prod.fst, ∀ k' ∈ (goRange m).map Prod.fst,
      fes.PkToString k = fes.PkToString k' → k = k') :
    ((goRange m).map (fun kv => fes.PkToString kv.1)).Nodup ∧
    makeMapJSONEncodable fes m =
      some ((goRange m).map (fun kv => (fes.PkToString kv.1, kv.2))) := by
  have hnd : ((goRange m).map (fun kv => fes.PkToString kv.1)).Nodup := by
    have h := List.Nodup.map_on hinj hkeys
    simpa [List.map_map, Function.comp_def] using h
  refine ⟨hnd, ?_⟩
  unfold makeMapJSONEncodable
  rw [foldl_goMapSet_of_fresh fes.PkToString (goRange m) [] hnd (by simp)]
  simp

/-! ## The shape of a `GetGlobalFeed` call -/

theorem foldl_goAppend_getD {α : Type} (rs : List α) (acc : GoSlice α) :
    (rs.foldl goAppend acc).getD [] = acc.getD [] ++ rs := by
  induction rs generalizing acc with
  | nil => simp
  | cons r rs ih => simp [ih, goAppend]

theorem foldl_goAppend_none {α : Type} (rs : List α) (hne : rs ≠ []) :
    rs.foldl goAppend (none : GoSlice α) = some rs := by
  cases rs with
  | nil => exact absurd rfl hne
  | cons r rs =>
    have h := foldl_goAppend_getD rs (goAppend none r)
    have hsome : ∀ (l : List α) (acc : List α), ∃ out, l.foldl goAppend (some acc) = some out := by
      intro l
      induction l with
      | nil => intro acc; exact ⟨acc, rfl⟩
      | cons x l ih => intro acc; simpa [goAppend] using ih (acc ++ [x])
    obtain ⟨out, hout⟩ := hsome rs [r]
    simp only [List.foldl_cons, goAppend, Option.getD_none, List.nil_append, hout,
      Option.getD_some] at h ⊢
    simp [h]

/-- The loop over the walked entries when every projection succeeds: every
entry is projected, in order, and the slice of the projections is handed to
the response writer. -/
theorem projectAndWrite_of_forall₂
    (fes : APIServer Request PKID BlockHash PostEntry PostEntryResponse UtxoView)
    (view : UtxoView) (entries : List PostEntry) (rs : List PostEntryResponse)
    (h : List.Forall₂ (fun e r => fes._postEntryToResponse e view = .ok r) entries rs)
    (acc : GoSlice PostEntryResponse) :
    projectAndWrite fes view entries acc =
      entries.map .project ++
        WriteGlobalStateDataToResponse fes (.posts (rs.foldl goAppend acc)) "GetGlobalFeed" := by
  induction h generalizing acc with
  | nil => simp [projectAndWrite]
  | cons hr _ ih => simp [projectAndWrite, hr, ih]

/-- The loop over the walked entries when some projection fails: it ends
with the bad-request error and performs projections only. -/
theorem projectAndWrite_of_error
    (fes : APIServer Request PKID BlockHash PostEntry PostEntryResponse UtxoView)
    (view : UtxoView) (entries : List PostEntry)
    (h : ∃ e ∈ entries, ∃ err, fes._postEntryToResponse e view = .error err)
    (acc : GoSlice PostEntryResponse) :
    ∃ k, projectAndWrite fes view entries acc =
      (entries.take (k + 1)).map .project ++
        [.badRequest "GetGlobalFeed: Error converting post entry to respones: %!v(MISSING)"] := by
  induction entries generalizing acc with
  | nil => simp at h
  | cons e rest ih =>
    cases hp : fes._postEntryToResponse e view with
    | error err => exact ⟨0, by simp [projectAndWrite, hp]⟩
    | ok r =>
      have h' : ∃ e ∈ rest, ∃ err, fes._postEntryToResponse e view = .error err := by
        obtain ⟨x, hx, err, hxe⟩ := h
        rcases List.mem_cons.1 hx with rfl | hx
        · rw [hp] at hxe; cases hxe
        · exact ⟨x, hx, err, hxe⟩
      obtain ⟨k, hk⟩ := ih h' (goAppend acc r)
      exact ⟨k + 1, by simp [projectAndWrite, hp, hk]⟩

/-- Projections that all succeed can be collected into a list. -/
theorem exists_forall₂_of_projects {α β : Type} (f : α → Except String β) (l : List α)
    (h : ∀ e ∈ l, ∃ r, f e = .ok r) : ∃ rs, List.Forall₂ (fun e r => f e = .ok r) l rs := by
  induction l with
  | nil => exact ⟨[], List.Forall₂.nil⟩
  | cons e l ih =>
    obtain ⟨r, hr⟩ := h e (List.mem_cons_self _ _)
    obtain ⟨rs, hrs⟩ := ih (fun x hx => h x (List.mem_cons_of_mem _ hx))
    exact ⟨r :: rs, List.Forall₂.cons hr hrs⟩

theorem walk_not_mem_write
    (fes : APIServer Request PKID BlockHash PostEntry PostEntryResponse UtxoView)
    (data : Data PKID PostEntryResponse) (name : String)
    (c : Option BlockHash) (n : Int) (v : UtxoView) (m : Bool) :
    Effect.walk c n v m ∉ WriteGlobalStateDataToResponse fes data name := by
  unfold WriteGlobalStateDataToResponse
  split <;> simp

theorem walk_not_mem_projectAndWrite
    (fes : APIServer Request PKID BlockHash PostEntry PostEntryResponse UtxoView)
    (view : UtxoView) (entries : List PostEntry) (acc : GoSlice PostEntryResponse)
    (c : Option BlockHash) (n : Int) (v : UtxoView) (m : Bool) :
    Effect.walk c n v m ∉ projectAndWrite fes view entries acc := by
  induction entries generalizing acc with
  | nil => simpa [projectAndWrite] using walk_not_mem_write fes _ _ c n v m
  | cons e rest ih =>
    cases hp : fes._postEntryToResponse e view with
    | error err => simp [projectAndWrite, hp]
    | ok r => simpa [projectAndWrite, hp] using ih (goAppend acc r)

/-- The part of a call after the cursor is decoded, when it runs the walk. -/
theorem feedFromView_of_walk_mem
    (fes : APIServer Request PKID BlockHash PostEntry PostEntryResponse UtxoView)
    (rd : GetGlobalFeedRequest) (start c : Option BlockHash) (n : Int) (view : UtxoView)
    (m : Bool) (hw : Effect.walk c n view m ∈ feedFromView fes rd start) :
    c = start ∧ n = numToFetchOf rd ∧ m = rd.MediaRequired ∧
      fes.GetAugmentedUniversalView = .ok view ∧
      feedFromView fes rd start =
        .fetchView :: .walk c n view m ::
          projectAndWrite fes view (fes.GetPostEntriesForGlobalWhitelist c n view m).1 none := by
  unfold feedFromView at hw ⊢
  cases hv : fes.GetAugmentedUniversalView with
  | error err => simp [hv] at hw
  | ok v =>
    simp only [hv] at hw ⊢
    simp only [List.mem_cons, reduceCtorEq, false_or] at hw
    rcases hw with hw | hw
    · cases hw
      exact ⟨rfl, rfl, rfl, rfl, rfl⟩
    · exact absurd hw (walk_not_mem_projectAndWrite fes _ _ _ _ _ _ _)

/-- A call that runs the walk: the request was decoded, the cursor of the
walk is the decoded `PostHashHex` (none for the empty string), the page size
and the media flag are those of the request, the view was obtained, and the
call continues with the loop over the entries the walk returned. -/
theorem GetGlobalFeed_of_walk_mem
    (fes : APIServer Request PKID BlockHash PostEntry PostEntryResponse UtxoView)
    (req : Request) (c : Option BlockHash) (n : Int) (view : UtxoView) (m : Bool)
    (hw : Effect.walk c n view m ∈ GetGlobalFeed fes req) :
    ∃ rd, fes.ExposeGlobalState = true ∧ fes.decodeRequest req = .ok rd ∧
      n = numToFetchOf rd ∧ m = rd.MediaRequired ∧
      fes.GetAugmentedUniversalView = .ok view ∧
      ((rd.PostHashHex = "" ∧ c = none) ∨
        (rd.PostHashHex ≠ "" ∧ ∃ h, fes.GetPostHashFromPostHashHex rd.PostHashHex = .ok h ∧
          c = some h)) ∧
      GetGlobalFeed fes req =
        beforeWalk rd ++ .walk c n view m ::
          projectAndWrite fes view (fes.GetPostEntriesForGlobalWhitelist c n view m).1 none := by
  unfold GetGlobalFeed at hw ⊢
  cases hx : fes.ExposeGlobalState with
  | false => simp [hx] at hw
  | true =>
    cases hd : fes.decodeRequest req with
    | error err => simp [hx, hd] at hw
    | ok rd =>
      refine ⟨rd, rfl, rfl, ?_⟩
      simp only [hx, hd, Bool.not_true, Bool.false_eq_true, if_false, List.mem_cons,
        reduceCtorEq, false_or] at hw ⊢
      unfold feedFromRequest at hw
      by_cases hhex : rd.PostHashHex = ""
      · simp only [hhex, ne_eq, not_true_eq_false, if_false] at hw
        obtain ⟨h1, h2, h3, h4, h5⟩ := feedFromView_of_walk_mem fes rd none c n view m hw
        refine ⟨h2, h3, h4, Or.inl ⟨hhex, h1⟩, ?_⟩
        simp [feedFromRequest, beforeWalk, hhex, h5]
      · simp only [ne_eq, hhex, not_false_eq_true, if_true, List.mem_cons, reduceCtorEq,
          false_or] at hw
        cases hc : fes.GetPostHashFromPostHashHex rd.PostHashHex with
        | error err => simp [hc] at hw
        | ok h =>
          simp only [hc] at hw
          obtain ⟨h1, h2, h3, h4, h5⟩ := feedFromView_of_walk_mem fes rd (some h) c n view m hw
          refine ⟨h2, h3, h4, Or.inr ⟨hhex, h, rfl, h1⟩, ?_⟩
          simp [feedFromRequest, beforeWalk, hhex, hc, h5]

/-- A call whose request decodes, whose cursor is absent or decodes and whose
view is obtained runs the walk with that cursor and the page size of the
request, and continues with the loop over the entries the walk returned. -/
theorem GetGlobalFeed_of_path
    (fes : APIServer Request PKID BlockHash PostEntry PostEntryResponse UtxoView)
    (req : Request) (rd : GetGlobalFeedRequest) (c : Option BlockHash) (view : UtxoView)
    (hx : fes.ExposeGlobalState = true) (hd : fes.decodeRequest req = .ok rd)
    (hc : (rd.PostHashHex = "" ∧ c = none) ∨
      (rd.PostHashHex ≠ "" ∧ ∃ h, fes.GetPostHashFromPostHashHex rd.PostHashHex = .ok h ∧
        c = some h))
    (hv : fes.GetAugmentedUniversalView = .ok view) :
    GetGlobalFeed fes req =
      beforeWalk rd ++ .walk c (numToFetchOf rd) view rd.MediaRequired ::
        projectAndWrite fes view
          (fes.GetPostEntriesForGlobalWhitelist c (numToFetchOf rd) view rd.MediaRequired).1
          none := by
  rcases hc with ⟨hhex, rfl⟩ | ⟨hhex, h, hh, rfl⟩
  · simp [GetGlobalFeed, feedFromRequest, feedFromView, beforeWalk, hx, hd, hhex, hv]
  · simp [GetGlobalFeed, feedFromRequest, feedFromView, beforeWalk, hx, hd, hhex, hh, hv]

/-- The loop over the entries performs projections, at most one bad-request
error and at most one write, and nothing else. -/
theorem mem_projectAndWrite_cases
    (fes : APIServer Request PKID BlockHash PostEntry PostEntryResponse UtxoView)
    (view : UtxoView) (entries : List PostEntry) (acc : GoSlice PostEntryResponse)
    (x : Effect PKID BlockHash PostEntry PostEntryResponse UtxoView)
    (hx : x ∈ projectAndWrite fes view entries acc) :
    (∃ e, x = .project e) ∨ (∃ msg, x = .badRequest msg) ∨ ∃ d b, x = .write d b := by
  induction entries generalizing acc with
  | nil =>
    unfold projectAndWrite WriteGlobalStateDataToResponse at hx
    split at hx
    · exact Or.inr (Or.inl ⟨_, List.mem_singleton.1 hx⟩)
    · exact Or.inr (Or.inr ⟨_, _, List.mem_singleton.1 hx⟩)
  | cons e rest ih =>
    unfold projectAndWrite at hx
    rcases List.mem_cons.1 hx with rfl | hx
    · exact Or.inl ⟨e, rfl⟩
    · cases hp : fes._postEntryToResponse e view with
      | error err =>
        rw [hp] at hx
        exact Or.inr (Or.inl ⟨_, List.mem_singleton.1 hx⟩)
      | ok r =>
        rw [hp] at hx
        exact ih _ hx

/-- Related lists have related last elements. -/
theorem forall₂_getLast? {α β : Type} (R : α → β → Prop) (l₁ : List α) (l₂ : List β)
    (h : List.Forall₂ R l₁ l₂) (a : α) (ha : l₁.getLast? = some a) :
    ∃ b, l₂.getLast? = some b ∧ R a b := by
  induction h with
  | nil => simp at ha
  | @cons x y xs ys hxy hrest ih =>
    cases hrest with
    | nil =>
      simp only [List.getLast?_singleton, Option.some.injEq] at ha
      exact ⟨y, by simp, ha ▸ hxy⟩
    | cons hxy' hrest' =>
      rw [List.getLast?_cons_cons] at ha ⊢
      exact ih ha

theorem wroteData_beforeWalk (rd : GetGlobalFeedRequest) :
    wroteData (beforeWalk rd :
      List (Effect PKID BlockHash PostEntry PostEntryResponse UtxoView)) = false := by
  unfold wroteData beforeWalk
  split <;> simp

theorem reportedError_beforeWalk (rd : GetGlobalFeedRequest) :
    reportedError (beforeWalk rd :
      List (Effect PKID BlockHash PostEntry PostEntryResponse UtxoView)) = false := by
  unfold reportedError beforeWalk
  split <;> simp

theorem wroteData_projects (entries : List PostEntry) :
    wroteData (entries.map Effect.project :
      List (Effect PKID BlockHash PostEntry PostEntryResponse UtxoView)) = false := by
  induction entries with
  | nil => rfl
  | cons e rest ih => simp [wroteData]

theorem reportedError_projects (entries : List PostEntry) :
    reportedError (entries.map Effect.project :
      List (Effect PKID BlockHash PostEntry PostEntryResponse UtxoView)) = false := by
  induction entries with
  | nil => rfl
  | cons e rest ih => simp [reportedError]

theorem wroteData_append
    (t u : List (Effect PKID BlockHash PostEntry PostEntryResponse UtxoView)) :
    wroteData (t ++ u) = (wroteData t || wroteData u) := by
  simp [wroteData]

theorem reportedError_append
    (t u : List (Effect PKID BlockHash PostEntry PostEntryResponse UtxoView)) :
    reportedError (t ++ u) = (reportedError t || reportedError u) := by
  simp [reportedError]

/-- Effects that write nothing do not change the page a call wrote. -/
theorem writtenPosts_append_of_not_wrote
    (t u : List (Effect PKID BlockHash PostEntry PostEntryResponse UtxoView))
    (h : wroteData t = false) : writtenPosts (t ++ u) = writtenPosts u := by
  induction t with
  | nil => rfl
  | cons x t ih =>
    cases x with
    | write d b => simp [wroteData] at h
    | _ =>
      simp only [wroteData, List.any_cons, Bool.false_or] at h
      simpa [writtenPosts] using ih h

/-- A trace without a write has no written page. -/
theorem writtenPosts_of_not_wrote
    (t : List (Effect PKID BlockHash PostEntry PostEntryResponse UtxoView))
    (h : wroteData t = false) : writtenPosts t = none := by
  simpa [writtenPosts] using writtenPosts_append_of_not_wrote t [] h

/-- The page written by a call that ran the walk lists the projections of
the walked entries, in the order of the walk. -/
theorem written_page_of_walk_mem
    (fes : APIServer Request PKID BlockHash PostEntry PostEntryResponse UtxoView)
    (req : Request) (c : Option BlockHash) (n : Int) (view : UtxoView) (m : Bool)
    (hw : Effect.walk c n view m ∈ GetGlobalFeed fes req)
    (page : List PostEntryResponse) (hpage : writtenPosts (GetGlobalFeed fes req) = some page) :
    List.Forall₂ (fun e r => fes._postEntryToResponse e view = .ok r)
      (fes.GetPostEntriesForGlobalWhitelist c n view m).1 page := by
  obtain ⟨rd, -, -, -, -, -, -, htrace⟩ := GetGlobalFeed_of_walk_mem fes req c n view m hw
  have hpre : wroteData (beforeWalk rd ++ [Effect.walk c n view m] :
      List (Effect PKID BlockHash PostEntry PostEntryResponse UtxoView)) = false := by
    rw [wroteData_append, wroteData_beforeWalk]; rfl
  rw [htrace, ← List.singleton_append, ← List.append_assoc,
    writtenPosts_append_of_not_wrote _ _ hpre] at hpage
  by_cases hfail : ∃ e ∈ (fes.GetPostEntriesForGlobalWhitelist c n view m).1,
      ∃ err, fes._postEntryToResponse e view = .error err
  · obtain ⟨k, hk⟩ := projectAndWrite_of_error fes view _ hfail none
    rw [hk, writtenPosts_append_of_not_wrote _ _ (wroteData_projects _)] at hpage
    simp [writtenPosts] at hpage
  · have hall : ∀ e ∈ (fes.GetPostEntriesForGlobalWhitelist c n view m).1,
        ∃ r, fes._postEntryToResponse e view = .ok r := by
      intro e he
      cases hp : fes._postEntryToResponse e view with
      | error err => exact absurd ⟨e, he, err, hp⟩ hfail
      | ok r => exact ⟨r, rfl⟩
    obtain ⟨rs, hrs⟩ := exists_forall₂_of_projects _ _ hall
    rw [projectAndWrite_of_forall₂ fes view _ rs hrs none,
      writtenPosts_append_of_not_wrote _ _ (wroteData_projects _)] at hpage
    unfold WriteGlobalStateDataToResponse at hpage
    split at hpage
    · simp [writtenPosts] at hpage
    · simp only [writtenPosts, foldl_goAppend_getD, Option.getD_none, List.nil_append,
        Option.some.injEq] at hpage
      exact hpage ▸ hrs

theorem decodeCursor_not_mem_feedFromView
    (fes : APIServer Request PKID BlockHash PostEntry PostEntryResponse UtxoView)
    (rd : GetGlobalFeedRequest) (start : Option BlockHash) (hex : String) :
    Effect.decodeCursor hex ∉ feedFromView fes rd start := by
  intro hmem
  unfold feedFromView at hmem
  cases hv : fes.GetAugmentedUniversalView with
  | error err => simp [hv] at hmem
  | ok v =>
    simp only [hv, List.mem_cons, reduceCtorEq, false_or] at hmem
    rcases mem_projectAndWrite_cases fes _ _ _ _ hmem with ⟨e, he⟩ | ⟨msg, he⟩ | ⟨d, b, he⟩ <;>
      cases he

/-- The projections of the walked entries carry on unchanged when only the
walk of the server is replaced. -/
theorem projectAndWrite_congr
    (fes fes' : APIServer Request PKID BlockHash PostEntry PostEntryResponse UtxoView)
    (hp : fes'._postEntryToResponse = fes._postEntryToResponse) (hj : fes'.json = fes.json)
    (view : UtxoView) (entries : List PostEntry) (acc : GoSlice PostEntryResponse) :
    projectAndWrite fes' view entries acc = projectAndWrite fes view entries acc := by
  induction entries generalizing acc with
  | nil => simp [projectAndWrite, WriteGlobalStateDataToResponse, hj]
  | cons e rest ih =>
    simp only [projectAndWrite, hp]
    cases fes._postEntryToResponse e view with
    | error err => rfl
    | ok r => simp [ih]

/-- Two servers that agree on the flag, the decoders, the view, the
projection, the codec and the entries the walk returns perform the same
`GetGlobalFeed` call, whatever errors their walks return. -/
theorem GetGlobalFeed_congr
    (fes fes' : APIServer Request PKID BlockHash PostEntry PostEntryResponse UtxoView)
    (hx : fes'.ExposeGlobalState = fes.ExposeGlobalState)
    (hd : fes'.decodeRequest = fes.decodeRequest)
    (hh : fes'.GetPostHashFromPostHashHex = fes.GetPostHashFromPostHashHex)
    (hv : fes'.GetAugmentedUniversalView = fes.GetAugmentedUniversalView)
    (hwalk : ∀ c n v m, (fes'.GetPostEntriesForGlobalWhitelist c n v m).1 =
      (fes.GetPostEntriesForGlobalWhitelist c n v m).1)
    (hp : fes'._postEntryToResponse = fes._postEntryToResponse) (hj : fes'.json = fes.json)
    (req : Request) : GetGlobalFeed fes' req = GetGlobalFeed fes req := by
  have hview : ∀ rd start, feedFromView fes' rd start = feedFromView fes rd start := by
    intro rd start
    simp only [feedFromView, hv, hwalk, projectAndWrite_congr fes fes' hp hj]
  have hreq : ∀ rd, feedFromRequest fes' rd = feedFromRequest fes rd := by
    intro rd
    simp only [feedFromRequest, hh, hview]
  simp only [GetGlobalFeed, hx, hd, hreq]

/-! ## Pagination over one snapshot -/

theorem encodeItems_ok {α : Type} (enc : α → Except String String) (rs : List α)
    (h : ∀ r ∈ rs, ∃ s, enc r = .ok s) : ∃ ss, encodeItems enc rs = .ok ss := by
  induction rs with
  | nil => exact ⟨[], rfl⟩
  | cons r rs ih =>
    obtain ⟨s, hs⟩ := h r (List.mem_cons_self _ _)
    obtain ⟨ss, hss⟩ := ih (fun x hx => h x (List.mem_cons_of_mem _ hx))
    exact ⟨s :: ss, by simp [encodeItems, hs, hss, Except.map]⟩

/-- A page whose items can all be rendered is written, and the page read
back from the response is the page that was handed over. -/
theorem writtenPosts_write_posts
    (fes : APIServer Request PKID BlockHash PostEntry PostEntryResponse UtxoView)
    (rs : List PostEntryResponse)
    (h : ∀ r ∈ rs, ∃ s, fes.json.postEntryResponse r = .ok s) :
    writtenPosts
      (WriteGlobalStateDataToResponse fes (.posts (rs.foldl goAppend none)) "GetGlobalFeed") =
      some rs := by
  cases rs with
  | nil => simp [WriteGlobalStateDataToResponse, jsonEncode, writtenPosts]
  | cons r rs =>
    rw [foldl_goAppend_none (r :: rs) (by simp)]
    obtain ⟨ss, hss⟩ := encodeItems_ok _ _ h
    simp [WriteGlobalStateDataToResponse, jsonEncode, hss, Except.map, writtenPosts]

theorem forall₂_map_of_forall {α β : Type} (f : α → Except String β) (g : α → β) (l : List α)
    (h : ∀ e ∈ l, f e = .ok (g e)) : List.Forall₂ (fun e r => f e = .ok r) l (l.map g) := by
  induction l with
  | nil => exact List.Forall₂.nil
  | cons e l ih =>
    exact List.Forall₂.cons (h e (List.mem_cons_self _ _))
      (ih (fun x hx => h x (List.mem_cons_of_mem _ hx)))

section Pagination

variable [DecidableEq BlockHash]
  {fes : APIServer Request PKID BlockHash PostEntry PostEntryResponse UtxoView}
  {mkRequest : GetGlobalFeedRequest → Request} {view : UtxoView} {order : List PostEntry}
  {hashOf : PostEntry → BlockHash} {hasMedia : PostEntry → Bool}
  {proj : PostEntry → PostEntryResponse} {hexOf : PostEntryResponse → String}

/-- One call of the feed in the pagination setting: with no cursor, or with
the hash of an item of the walk order as cursor, the page written is the
projection of what the walk of the spec returns. -/
theorem PaginationSetting.page_of_call
    (S : PaginationSetting fes mkRequest view order hashOf hasMedia proj hexOf)
    (hex : String) (c : Option BlockHash) (n : Int) (hn : n ≠ 0) (m : Bool)
    (hc : (hex = "" ∧ c = none) ∨
      (∃ e ∈ order, hex = hexOf (proj e) ∧ c = some (hashOf e))) :
    writtenPosts (GetGlobalFeed fes (mkRequest ⟨hex, n, m⟩)) =
      some ((specWalk hashOf hasMedia order c n m).map proj) := by
  have hc' : ((⟨hex, n, m⟩ : GetGlobalFeedRequest).PostHashHex = "" ∧ c = none) ∨
      ((⟨hex, n, m⟩ : GetGlobalFeedRequest).PostHashHex ≠ "" ∧
        ∃ h, fes.GetPostHashFromPostHashHex (⟨hex, n, m⟩ : GetGlobalFeedRequest).PostHashHex =
          .ok h ∧ c = some h) := by
    rcases hc with ⟨h1, h2⟩ | ⟨e, he, h1, h2⟩
    · exact Or.inl ⟨h1, h2⟩
    · refine Or.inr ⟨?_, hashOf e, ?_, h2⟩
      · simpa [h1] using (S.cursors e he).1
      · simpa [h1] using (S.cursors e he).2
  have hnum : numToFetchOf ⟨hex, n, m⟩ = n := by simp [numToFetchOf, hn]
  have hpath := GetGlobalFeed_of_path fes (mkRequest ⟨hex, n, m⟩) ⟨hex, n, m⟩ c view
    S.exposed (S.decodes _) hc' S.snapshot
  rw [hnum, S.walks] at hpath
  have hsub := specWalk_subset hashOf hasMedia order c n m
  have hrel := forall₂_map_of_forall (fun e => fes._postEntryToResponse e view) proj
    (specWalk hashOf hasMedia order c n m) (fun e he => S.projects e (hsub e he))
  have hpre : wroteData (beforeWalk ⟨hex, n, m⟩ ++ [Effect.walk c n view m] :
      List (Effect PKID BlockHash PostEntry PostEntryResponse UtxoView)) = false := by
    rw [wroteData_append, wroteData_beforeWalk]; rfl
  rw [hpath, projectAndWrite_of_forall₂ fes view _ _ hrel none, ← List.singleton_append,
    ← List.append_assoc, writtenPosts_append_of_not_wrote _ _ hpre,
    writtenPosts_append_of_not_wrote _ _ (wroteData_projects _)]
  apply writtenPosts_write_posts
  intro r hr
  obtain ⟨e, he, rfl⟩ := List.mem_map.1 hr
  exact S.renders e (hsub e he)

/-- The pagination client from any position of the feed: when the walk from
the current cursor returns a prefix of `rest`, where `rest` is what remains of
the accepted items, the client returns exactly `rest`, given more fuel than
`rest` has items. -/
theorem PaginationSetting.paginate_from
    (S : PaginationSetting fes mkRequest view order hashOf hasMedia proj hexOf)
    (p : Int) (hp : 0 < p) (m : Bool) (fuel : Nat) :
    ∀ (front rest : List PostEntry) (hex : String) (c : Option BlockHash),
      order.filter (fun e => !m || hasMedia e) = front ++ rest →
      rest.length < fuel →
      ((hex = "" ∧ c = none) ∨ (∃ e ∈ order, hex = hexOf (proj e) ∧ c = some (hashOf e))) →
      (∀ n, specWalk hashOf hasMedia order c n m = rest.take n.toNat) →
      paginate fes mkRequest hexOf p m fuel hex = some (rest.map proj) := by
  induction fuel with
  | zero => intro front rest hex c _ hlen; omega
  | succ fuel ih =>
    intro front rest hex c hsplit hlen hc hwalk
    have hpage := S.page_of_call hex c p (by omega) m hc
    rw [hwalk] at hpage
    rw [paginate, hpage]
    simp only [List.getLast?_map]
    cases hlast : (rest.take p.toNat).getLast? with
    | none =>
      have hnil : rest.take p.toNat = [] := List.getLast?_eq_none_iff.1 hlast
      have hk : 0 < p.toNat := by omega
      cases rest with
      | nil => simp
      | cons x xs =>
        obtain ⟨k, hk'⟩ : ∃ k, p.toNat = k + 1 := ⟨p.toNat - 1, by omega⟩
        rw [hk'] at hnil
        simp at hnil
    | some x =>
      have hxtake : x ∈ rest.take p.toNat := List.mem_of_getLast?_eq_some hlast
      have hxrest : x ∈ rest := List.mem_of_mem_take hxtake
      have hxacc : x ∈ order.filter (fun e => !m || hasMedia e) := by
        rw [hsplit]; exact List.mem_append_right _ hxrest
      have hxorder : x ∈ order := List.mem_of_mem_filter hxacc
      have hacc : (!m || hasMedia x) = true := (List.mem_filter.1 hxacc).2
      have hnd : ((order.filter (fun e => !m || hasMedia e)).map hashOf).Nodup :=
        List.Nodup.sublist (List.Sublist.map hashOf (List.filter_sublist order)) S.unique
      have hnext := ih (front ++ rest.take p.toNat) (rest.drop p.toNat) (hexOf (proj x))
        (some (hashOf x))
        (by rw [hsplit, List.append_assoc, List.take_append_drop])
        (by
          have hpos : 0 < p.toNat := by omega
          have hne : 0 < rest.length := List.length_pos_of_mem hxrest
          rw [List.length_drop]
          omega)
        (Or.inr ⟨x, hxorder, rfl, rfl⟩)
        (by
          intro n
          rw [specWalk_some hashOf hasMedia order S.unique n m x hxorder hacc,
            walkAfter_last_of_take hashOf _ front rest hsplit hnd p.toNat x hlast])
      simp only [Option.map_some', hnext]
      rw [← List.map_append, List.take_append_drop]

end Pagination

/-! ## The exposure gate -/

/-- Claim C1: with the exposure flag off, each of the four handlers performs
exactly one effect, the not-found error with the message
"Global state not exposed": the body is not decoded, no view is fetched, no
walk or projection is run and nothing is written. -/
theorem disabled_handlers_only_report_not_found
    (fes : APIServer Request PKID BlockHash PostEntry PostEntryResponse UtxoView)
    (req : Request) (hoff : fes.ExposeGlobalState = false) :
    GetVerifiedUsernameMap fes req = [.notFound "Global state not exposed"] ∧
    GetBlacklistedPublicKeys fes req = [.notFound "Global state not exposed"] ∧
    GetGraylistedPublicKeys fes req = [.notFound "Global state not exposed"] ∧
    GetGlobalFeed fes req = [.notFound "Global state not exposed"] := by
  simp [GetVerifiedUsernameMap, GetBlacklistedPublicKeys, GetGraylistedPublicKeys,
    GetGlobalFeed, hoff]

/-- Witness of C1: the example server with the flag off, on a request whose
body is malformed. -/
theorem disabled_handlers_only_report_not_found_witness :
    (Example.hiddenServer Example.abcd).ExposeGlobalState = false ∧
    GetVerifiedUsernameMap (Example.hiddenServer Example.abcd) (.error "unexpected EOF") =
      [.notFound "Global state not exposed"] ∧
    GetBlacklistedPublicKeys (Example.hiddenServer Example.abcd) (.error "unexpected EOF") =
      [.notFound "Global state not exposed"] ∧
    GetGraylistedPublicKeys (Example.hiddenServer Example.abcd) (.error "unexpected EOF") =
      [.notFound "Global state not exposed"] ∧
    GetGlobalFeed (Example.hiddenServer Example.abcd) (.error "unexpected EOF") =
      [.notFound "Global state not exposed"] :=
  ⟨rfl, disabled_handlers_only_report_not_found _ _ rfl⟩

/-! ## Pagination -/

/-- The pagination setting holds for the example server over `[A, B, C, D]`. -/
theorem Example.setting :
    PaginationSetting (Example.server Example.abcd) Except.ok Example.abcd Example.abcd
      Example.Post.PostHash Example.Post.HasMedia id Example.Post.PostHash where
  exposed := rfl
  decodes := fun _ => rfl
  snapshot := rfl
  walks := fun _ _ _ => rfl
  unique := by decide
  projects := by
    intro e he
    simp only [Example.abcd, List.mem_cons, List.mem_singleton, List.not_mem_nil,
      or_false] at he
    rcases he with rfl | rfl | rfl | rfl <;> rfl
  renders := fun e _ => ⟨e.PostHash, rfl⟩
  cursors := by
    intro e he
    simp only [Example.abcd, List.mem_cons, List.mem_singleton, List.not_mem_nil,
      or_false] at he
    rcases he with rfl | rfl | rfl | rfl <;> exact ⟨by decide, rfl⟩

/-- Claim C2: within one snapshot whose walk order has unique hashes, with
the walk of the spec and a fixed media flag, for every positive page size:
calling the feed with no cursor and then with the hash of the last item of
each page as the next cursor, until a page is empty, and concatenating the
pages, returns (with any fuel above the length of the walk order) exactly
the page of one call whose page size covers the whole walk order; that page
lists the projections of all accepted items in walk order, and no two of
its items carry the same hash. -/
theorem pagination_is_gap_free [DecidableEq BlockHash]
    (fes : APIServer Request PKID BlockHash PostEntry PostEntryResponse UtxoView)
    (mkRequest : GetGlobalFeedRequest → Request) (view : UtxoView) (order : List PostEntry)
    (hashOf : PostEntry → BlockHash) (hasMedia : PostEntry → Bool)
    (proj : PostEntry → PostEntryResponse) (hexOf : PostEntryResponse → String)
    (S : PaginationSetting fes mkRequest view order hashOf hasMedia proj hexOf)
    (pageSize : Int) (hpos : 0 < pageSize) (mediaRequired : Bool)
    (unbounded : Int) (hbig : (order.length : Int) ≤ unbounded) (hne : unbounded ≠ 0)
    (fuel : Nat) (hfuel : order.length < fuel) :
    writtenPosts (GetGlobalFeed fes (mkRequest ⟨"", unbounded, mediaRequired⟩)) =
      some ((order.filter (fun e => !mediaRequired || hasMedia e)).map proj) ∧
    paginate fes mkRequest hexOf pageSize mediaRequired fuel "" =
      writtenPosts (GetGlobalFeed fes (mkRequest ⟨"", unbounded, mediaRequired⟩)) ∧
    (((order.filter (fun e => !mediaRequired || hasMedia e)).map proj).map hexOf).Nodup := by
  have hlen : (order.filter (fun e => !mediaRequired || hasMedia e)).length ≤ order.length :=
    List.length_filter_le _ _
  have hone : writtenPosts (GetGlobalFeed fes (mkRequest ⟨"", unbounded, mediaRequired⟩)) =
      some ((order.filter (fun e => !mediaRequired || hasMedia e)).map proj) := by
    rw [S.page_of_call "" none unbounded hne mediaRequired (Or.inl ⟨rfl, rfl⟩), specWalk_none,
      List.take_of_length_le (by omega)]
  refine ⟨hone, ?_, ?_⟩
  · rw [hone]
    exact S.paginate_from pageSize hpos mediaRequired fuel [] _ "" none (by simp) (by omega)
      (Or.inl ⟨rfl, rfl⟩) (fun n => specWalk_none hashOf hasMedia order n mediaRequired)
  · rw [List.map_map]
    have hnd : (order.filter (fun e => !mediaRequired || hasMedia e)).Nodup :=
      List.Nodup.filter _ (List.Nodup.of_map hashOf S.unique)
    refine List.Nodup.map_on ?_ hnd
    intro x hx y hy hxy
    have hxo := List.mem_of_mem_filter hx
    have hyo := List.mem_of_mem_filter hy
    have h1 := (S.cursors x hxo).2
    have h2 := (S.cursors y hyo).2
    simp only [Function.comp_apply] at hxy
    rw [hxy, h2] at h1
    exact List.inj_on_of_nodup_map S.unique hxo hyo (Except.ok.inj h1).symm

/-- Witness of C2: the end-to-end scenario, walk order `[A, B, C, D]`, page
size 2, against one call of page size 4; call by call the pages are `[A, B]`,
then `[C, D]` from cursor `B`, then an empty page, written without error,
from cursor `D`. -/
theorem pagination_is_gap_free_witness :
    (writtenPosts (GetGlobalFeed (Example.server Example.abcd) (.ok ⟨"", 4, false⟩)) =
        some ((Example.abcd.filter (fun e => !false || e.HasMedia)).map id) ∧
      paginate (Example.server Example.abcd) Except.ok Example.Post.PostHash 2 false 5 "" =
        writtenPosts (GetGlobalFeed (Example.server Example.abcd) (.ok ⟨"", 4, false⟩)) ∧
      (((Example.abcd.filter (fun e => !false || e.HasMedia)).map id).map
        Example.Post.PostHash).Nodup) ∧
    writtenPosts (GetGlobalFeed (Example.server Example.abcd) (.ok ⟨"", 2, false⟩)) =
      some [⟨"A", false⟩, ⟨"B", false⟩] ∧
    writtenPosts (GetGlobalFeed (Example.server Example.abcd) (.ok ⟨"B", 2, false⟩)) =
      some [⟨"C", false⟩, ⟨"D", false⟩] ∧
    writtenPosts (GetGlobalFeed (Example.server Example.abcd) (.ok ⟨"D", 2, false⟩)) =
      some [] ∧
    reportedError (GetGlobalFeed (Example.server Example.abcd) (.ok ⟨"D", 2, false⟩)) = false ∧
    paginate (Example.server Example.abcd) Except.ok Example.Post.PostHash 2 false 5 "" =
      some Example.abcd :=
  ⟨pagination_is_gap_free (Example.server Example.abcd) Except.ok Example.abcd Example.abcd
      Example.Post.PostHash Example.Post.HasMedia id Example.Post.PostHash Example.setting
      2 (by decide) false 4 (by decide) (by decide) 5 (by decide),
    by decide⟩

/-! ## The feed page -/

/-- Claim C3: in a call of `GetGlobalFeed` that ran the walk, if the
projection of one of the entries the walk returned fails, the call ends with
the bad-request error and writes no data to the response: no page, not even
of the entries projected before the failing one. -/
theorem projection_failure_aborts_the_call
    (fes : APIServer Request PKID BlockHash PostEntry PostEntryResponse UtxoView)
    (req : Request) (c : Option BlockHash) (n : Int) (view : UtxoView) (m : Bool)
    (hw : Effect.walk c n view m ∈ GetGlobalFeed fes req)
    (e : PostEntry) (he : e ∈ (fes.GetPostEntriesForGlobalWhitelist c n view m).1)
    (err : String) (hfail : fes._postEntryToResponse e view = .error err) :
    (GetGlobalFeed fes req).getLast? = some (.badRequest
      "GetGlobalFeed: Error converting post entry to respones: %!v(MISSING)") ∧
    wroteData (GetGlobalFeed fes req) = false ∧
    writtenPosts (GetGlobalFeed fes req) = none := by
  obtain ⟨rd, -, -, -, -, -, -, htrace⟩ := GetGlobalFeed_of_walk_mem fes req c n view m hw
  obtain ⟨k, hk⟩ := projectAndWrite_of_error fes view _ ⟨e, he, err, hfail⟩ none
  have hnot : wroteData (GetGlobalFeed fes req) = false := by
    rw [htrace, hk, ← List.singleton_append, wroteData_append, wroteData_append,
      wroteData_append, wroteData_beforeWalk, wroteData_projects]
    rfl
  refine ⟨?_, hnot, writtenPosts_of_not_wrote _ hnot⟩
  rw [htrace, hk, ← List.singleton_append, ← List.append_assoc, ← List.append_assoc,
    List.getLast?_concat]

/-- Witness of C3: the walk order `[A, ??, C]`, whose second post cannot be
projected. -/
theorem projection_failure_aborts_the_call_witness :
    (GetGlobalFeed (Example.server [⟨"A", false⟩, ⟨"??", false⟩, ⟨"C", false⟩])
        (.ok ⟨"", 0, false⟩)).getLast? =
      some (.badRequest "GetGlobalFeed: Error converting post entry to respones: %!v(MISSING)") ∧
    wroteData (GetGlobalFeed (Example.server [⟨"A", false⟩, ⟨"??", false⟩, ⟨"C", false⟩])
      (.ok ⟨"", 0, false⟩)) = false ∧
    writtenPosts (GetGlobalFeed (Example.server [⟨"A", false⟩, ⟨"??", false⟩, ⟨"C", false⟩])
      (.ok ⟨"", 0, false⟩)) = none :=
  projection_failure_aborts_the_call
    (Example.server [⟨"A", false⟩, ⟨"??", false⟩, ⟨"C", false⟩]) (.ok ⟨"", 0, false⟩)
    none 50 [⟨"A", false⟩, ⟨"??", false⟩, ⟨"C", false⟩] false (by decide)
    ⟨"??", false⟩ (by decide) "no such post" rfl

/-- Claim C4: in a call of `GetGlobalFeed` that ran the walk, when the
projection of every walked entry succeeds the slice handed to the response
writer has the length of the list the walk returned, its i-th item is the
projection of the i-th walked entry for every index i, and its last item is
the projection of the last walked entry; nothing is written and no error is
reported before that slice is handed over. -/
theorem page_lists_projections_in_walk_order
    (fes : APIServer Request PKID BlockHash PostEntry PostEntryResponse UtxoView)
    (req : Request) (c : Option BlockHash) (n : Int) (view : UtxoView) (m : Bool)
    (hw : Effect.walk c n view m ∈ GetGlobalFeed fes req)
    (hall : ∀ e ∈ (fes.GetPostEntriesForGlobalWhitelist c n view m).1,
      ∃ r, fes._postEntryToResponse e view = .ok r) :
    ∃ (pre : List fes.Eff) (rs : GoSlice PostEntryResponse),
      GetGlobalFeed fes req =
        pre ++ WriteGlobalStateDataToResponse fes (.posts rs) "GetGlobalFeed" ∧
      wroteData pre = false ∧ reportedError pre = false ∧
      (rs.getD []).length = (fes.GetPostEntriesForGlobalWhitelist c n view m).1.length ∧
      (∀ (i : Nat) (hi : i < (fes.GetPostEntriesForGlobalWhitelist c n view m).1.length)
        (hj : i < (rs.getD []).length),
        fes._postEntryToResponse
          ((fes.GetPostEntriesForGlobalWhitelist c n view m).1.get ⟨i, hi⟩) view =
          .ok ((rs.getD []).get ⟨i, hj⟩)) ∧
      (∀ e, (fes.GetPostEntriesForGlobalWhitelist c n view m).1.getLast? = some e →
        ∃ r, (rs.getD []).getLast? = some r ∧ fes._postEntryToResponse e view = .ok r) := by
  obtain ⟨rd, -, -, -, -, -, -, htrace⟩ := GetGlobalFeed_of_walk_mem fes req c n view m hw
  obtain ⟨rs, hrs⟩ := exists_forall₂_of_projects _ _ hall
  have hget : (rs.foldl goAppend (none : GoSlice PostEntryResponse)).getD [] = rs := by
    simp [foldl_goAppend_getD]
  refine ⟨beforeWalk rd ++ [.walk c n view m] ++
      (fes.GetPostEntriesForGlobalWhitelist c n view m).1.map .project,
    rs.foldl goAppend none, ?_, ?_, ?_, ?_, ?_, ?_⟩
  · rw [htrace, projectAndWrite_of_forall₂ fes view _ rs hrs none]
    simp
  · rw [wroteData_append, wroteData_append, wroteData_beforeWalk, wroteData_projects]
    rfl
  · rw [reportedError_append, reportedError_append, reportedError_beforeWalk,
      reportedError_projects]
    rfl
  · rw [hget]
    exact hrs.length_eq.symm
  · intro i hi hj
    have hj' : i < rs.length := by rw [hget] at hj; exact hj
    have := hrs.get hi hj'
    simpa [hget] using this
  · intro e he
    rw [hget]
    exact forall₂_getLast? _ _ _ hrs e he

/-- Witness of C4: the first page of size 2 over the walk order `[A, B, C, D]`. -/
theorem page_lists_projections_in_walk_order_witness :
    ∃ (pre : List (Example.server Example.abcd).Eff) (rs : GoSlice Example.Post),
      GetGlobalFeed (Example.server Example.abcd) (.ok ⟨"", 2, false⟩) =
        pre ++ WriteGlobalStateDataToResponse (Example.server Example.abcd) (.posts rs)
          "GetGlobalFeed" ∧
      wroteData pre = false ∧ reportedError pre = false ∧
      (rs.getD []).length =
        ((Example.server Example.abcd).GetPostEntriesForGlobalWhitelist none 2 Example.abcd
          false).1.length ∧
      (∀ (i : Nat)
        (hi : i < ((Example.server Example.abcd).GetPostEntriesForGlobalWhitelist none 2
          Example.abcd false).1.length)
        (hj : i < (rs.getD []).length),
        (Example.server Example.abcd)._postEntryToResponse
          (((Example.server Example.abcd).GetPostEntriesForGlobalWhitelist none 2 Example.abcd
            false).1.get ⟨i, hi⟩) Example.abcd =
          .ok ((rs.getD []).get ⟨i, hj⟩)) ∧
      (∀ e, ((Example.server Example.abcd).GetPostEntriesForGlobalWhitelist none 2 Example.abcd
          false).1.getLast? = some e →
        ∃ r, (rs.getD []).getLast? = some r ∧
          (Example.server Example.abcd)._postEntryToResponse e Example.abcd = .ok r) :=
  page_lists_projections_in_walk_order (Example.server Example.abcd) (.ok ⟨"", 2, false⟩)
    none 2 Example.abcd false (by decide)
    (by
      intro e he
      have hwalk : ((Example.server Example.abcd).GetPostEntriesForGlobalWhitelist none 2
          Example.abcd false).1 = [⟨"A", false⟩, ⟨"B", false⟩] := by decide
      rw [hwalk] at he
      simp only [List.mem_cons, List.mem_singleton, List.not_mem_nil, or_false] at he
      rcases he with rfl | rfl
      · exact ⟨_, rfl⟩
      · exact ⟨_, rfl⟩)

/-- Claim C5: the page size `GetGlobalFeed` hands to the walk is 50 when the
decoded `NumToFetch` is zero (also when the field is omitted) and is
`NumToFetch` itself when it is positive; so for a request without
`NumToFetch` a written page has at most 50 items whenever the walk returned
no more entries than the page size it was given. -/
theorem default_page_size
    (fes : APIServer Request PKID BlockHash PostEntry PostEntryResponse UtxoView)
    (req : Request) (rd : GetGlobalFeedRequest) (c : Option BlockHash) (n : Int)
    (view : UtxoView) (m : Bool)
    (hd : fes.decodeRequest req = .ok rd)
    (hw : Effect.walk c n view m ∈ GetGlobalFeed fes req) :
    (rd.NumToFetch = 0 → n = 50) ∧
    (0 < rd.NumToFetch → n = rd.NumToFetch) ∧
    (rd.NumToFetch = 0 →
      (fes.GetPostEntriesForGlobalWhitelist c n view m).1.length ≤ n.toNat →
      ∀ page, writtenPosts (GetGlobalFeed fes req) = some page → page.length ≤ 50) := by
  obtain ⟨rd', -, hd', hn, -, -, -, -⟩ := GetGlobalFeed_of_walk_mem fes req c n view m hw
  rw [hd] at hd'
  cases hd'
  have h0 : rd.NumToFetch = 0 → n = 50 := by
    intro h
    simp [hn, numToFetchOf, h]
  refine ⟨h0, ?_, ?_⟩
  · intro hpos
    have hne : rd.NumToFetch ≠ 0 := by omega
    simp [hn, numToFetchOf, hne]
  · intro hz hlen page hpage
    have hrel := written_page_of_walk_mem fes req c n view m hw page hpage
    rw [← hrel.length_eq]
    have h50 : n.toNat = 50 := by rw [h0 hz]; rfl
    omega

/-- Witness of C5: a request without `NumToFetch` on the example server. -/
theorem default_page_size_witness :
    ((0 : Int) = 0 → (50 : Int) = 50) ∧
    ((0 : Int) < 0 → (50 : Int) = 0) ∧
    ((0 : Int) = 0 →
      ((Example.server Example.abcd).GetPostEntriesForGlobalWhitelist none 50 Example.abcd
        false).1.length ≤ (50 : Int).toNat →
      ∀ page, writtenPosts (GetGlobalFeed (Example.server Example.abcd)
        (.ok ⟨"", 0, false⟩)) = some page → page.length ≤ 50) :=
  default_page_size (Example.server Example.abcd) (.ok ⟨"", 0, false⟩) ⟨"", 0, false⟩
    none 50 Example.abcd false rfl (by decide)

/-- Claim C6, as amended: a negative `NumToFetch` is not rejected.  With the
exposure flag on, a decoded request with a negative `NumToFetch`, a cursor
that is absent or decodes, and a view that is obtained, the walk is run with
exactly the negative `NumToFetch` as its page size, and the call continues
with the projection and the writing of the entries the walk returned. -/
theorem negative_page_size_reaches_the_walk
    (fes : APIServer Request PKID BlockHash PostEntry PostEntryResponse UtxoView)
    (req : Request) (rd : GetGlobalFeedRequest) (c : Option BlockHash) (view : UtxoView)
    (hx : fes.ExposeGlobalState = true) (hd : fes.decodeRequest req = .ok rd)
    (hneg : rd.NumToFetch < 0)
    (hc : (rd.PostHashHex = "" ∧ c = none) ∨
      (rd.PostHashHex ≠ "" ∧ ∃ h, fes.GetPostHashFromPostHashHex rd.PostHashHex = .ok h ∧
        c = some h))
    (hv : fes.GetAugmentedUniversalView = .ok view) :
    GetGlobalFeed fes req =
      beforeWalk rd ++ .walk c rd.NumToFetch view rd.MediaRequired ::
        projectAndWrite fes view
          (fes.GetPostEntriesForGlobalWhitelist c rd.NumToFetch view rd.MediaRequired).1
          none := by
  have hn : numToFetchOf rd = rd.NumToFetch := by
    have hne : rd.NumToFetch ≠ 0 := by omega
    simp [numToFetchOf, hne]
  have h := GetGlobalFeed_of_path fes req rd c view hx hd hc hv
  rwa [hn] at h

/-- Witness of C6 as amended: `NumToFetch = -1` on the example server. -/
theorem negative_page_size_reaches_the_walk_witness :
    GetGlobalFeed (Example.server Example.abcd) (.ok ⟨"", -1, false⟩) =
      beforeWalk ⟨"", -1, false⟩ ++ .walk none (-1) Example.abcd false ::
        projectAndWrite (Example.server Example.abcd) Example.abcd
          ((Example.server Example.abcd).GetPostEntriesForGlobalWhitelist none (-1)
            Example.abcd false).1 none :=
  negative_page_size_reaches_the_walk (Example.server Example.abcd) (.ok ⟨"", -1, false⟩)
    ⟨"", -1, false⟩ none Example.abcd rfl rfl (by decide) (Or.inl ⟨rfl, rfl⟩) rfl

/-- Counterexample to C6 as stated: on the example server a request with
`NumToFetch = -1` is not rejected: the walk is run with page size -1, no
error is reported and a page is written. -/
theorem negative_page_size_is_not_rejected :
    (-1 : Int) < 0 ∧
    GetGlobalFeed (Example.server Example.abcd) (.ok ⟨"", -1, false⟩) =
      [.decodeBody, .fetchView, .walk none (-1) Example.abcd false,
        .write (.posts none) "null\n"] ∧
    reportedError (GetGlobalFeed (Example.server Example.abcd) (.ok ⟨"", -1, false⟩)) = false ∧
    wroteData (GetGlobalFeed (Example.server Example.abcd) (.ok ⟨"", -1, false⟩)) = true := by
  decide

/-- Claim C7: with the exposure flag on and a decoded request.  When
`PostHashHex` is empty no cursor is decoded, a walk is only ever started with
no cursor, and it is started once the view is obtained.  When `PostHashHex`
is not empty and decodes to `h`, a walk is only ever started with cursor `h`,
and it is started once the view is obtained.  When `PostHashHex` is not empty
and does not decode, the call is the decoding of the body, the decoding of
the cursor and a bad-request error: no view is fetched and no walk is run. -/
theorem cursor_handling
    (fes : APIServer Request PKID BlockHash PostEntry PostEntryResponse UtxoView)
    (req : Request) (rd : GetGlobalFeedRequest)
    (hx : fes.ExposeGlobalState = true) (hd : fes.decodeRequest req = .ok rd) :
    (rd.PostHashHex = "" →
      (∀ hex, Effect.decodeCursor hex ∉ GetGlobalFeed fes req) ∧
      (∀ c n v m, Effect.walk c n v m ∈ GetGlobalFeed fes req → c = none) ∧
      (∀ v, fes.GetAugmentedUniversalView = .ok v →
        Effect.walk none (numToFetchOf rd) v rd.MediaRequired ∈ GetGlobalFeed fes req)) ∧
    (∀ h, rd.PostHashHex ≠ "" → fes.GetPostHashFromPostHashHex rd.PostHashHex = .ok h →
      (∀ c n v m, Effect.walk c n v m ∈ GetGlobalFeed fes req → c = some h) ∧
      (∀ v, fes.GetAugmentedUniversalView = .ok v →
        Effect.walk (some h) (numToFetchOf rd) v rd.MediaRequired ∈ GetGlobalFeed fes req)) ∧
    (∀ err, rd.PostHashHex ≠ "" → fes.GetPostHashFromPostHashHex rd.PostHashHex = .error err →
      GetGlobalFeed fes req =
        [.decodeBody, .decodeCursor rd.PostHashHex, .badRequest ("GetGlobalFeed: " ++ err)]) := by
  refine ⟨?_, ?_, ?_⟩
  · intro hhex
    refine ⟨?_, ?_, ?_⟩
    · intro hex hmem
      have htrace : GetGlobalFeed fes req = .decodeBody :: feedFromView fes rd none := by
        simp [GetGlobalFeed, feedFromRequest, hx, hd, hhex]
      rw [htrace] at hmem
      simp only [List.mem_cons, reduceCtorEq, false_or] at hmem
      exact decodeCursor_not_mem_feedFromView fes rd none hex hmem
    · intro c n v m hw
      obtain ⟨rd', -, hd', -, -, -, hc, -⟩ := GetGlobalFeed_of_walk_mem fes req c n v m hw
      rw [hd] at hd'
      cases hd'
      rcases hc with ⟨-, hc⟩ | ⟨hne, -⟩
      · exact hc
      · exact absurd hhex hne
    · intro v hv
      rw [GetGlobalFeed_of_path fes req rd none v hx hd (Or.inl ⟨hhex, rfl⟩) hv]
      simp
  · intro h hhex hh
    refine ⟨?_, ?_⟩
    · intro c n v m hw
      obtain ⟨rd', -, hd', -, -, -, hc, -⟩ := GetGlobalFeed_of_walk_mem fes req c n v m hw
      rw [hd] at hd'
      cases hd'
      rcases hc with ⟨he, -⟩ | ⟨-, h', hh', hc⟩
      · exact absurd he hhex
      · rw [hh] at hh'
        cases hh'
        exact hc
    · intro v hv
      rw [GetGlobalFeed_of_path fes req rd (some h) v hx hd (Or.inr ⟨hhex, h, hh, rfl⟩) hv]
      simp
  · intro err hhex hh
    simp [GetGlobalFeed, feedFromRequest, hx, hd, hhex, hh]

/-- Witness of C7: the example server and a request whose cursor is `B`. -/
theorem cursor_handling_witness :
    (("B" : String) = "" →
      (∀ hex, Effect.decodeCursor hex ∉
        GetGlobalFeed (Example.server Example.abcd) (.ok ⟨"B", 2, false⟩)) ∧
      (∀ c n v m, Effect.walk c n v m ∈
        GetGlobalFeed (Example.server Example.abcd) (.ok ⟨"B", 2, false⟩) → c = none) ∧
      (∀ v, (Example.server Example.abcd).GetAugmentedUniversalView = .ok v →
        Effect.walk none (numToFetchOf ⟨"B", 2, false⟩) v false ∈
          GetGlobalFeed (Example.server Example.abcd) (.ok ⟨"B", 2, false⟩))) ∧
    (∀ h, ("B" : String) ≠ "" →
      (Example.server Example.abcd).GetPostHashFromPostHashHex "B" = .ok h →
      (∀ c n v m, Effect.walk c n v m ∈
        GetGlobalFeed (Example.server Example.abcd) (.ok ⟨"B", 2, false⟩) → c = some h) ∧
      (∀ v, (Example.server Example.abcd).GetAugmentedUniversalView = .ok v →
        Effect.walk (some h) (numToFetchOf ⟨"B", 2, false⟩) v false ∈
          GetGlobalFeed (Example.server Example.abcd) (.ok ⟨"B", 2, false⟩))) ∧
    (∀ err, ("B" : String) ≠ "" →
      (Example.server Example.abcd).GetPostHashFromPostHashHex "B" = .error err →
      GetGlobalFeed (Example.server Example.abcd) (.ok ⟨"B", 2, false⟩) =
        [.decodeBody, .decodeCursor "B", .badRequest ("GetGlobalFeed: " ++ err)]) :=
  cursor_handling (Example.server Example.abcd) (.ok ⟨"B", 2, false⟩) ⟨"B", 2, false⟩ rfl rfl

/-- Claim C8, as amended: in a call of `GetGlobalFeed` that ran the walk, when
the walk returned no entry the value handed to the response writer is the nil
slice, which is written as the JSON value `null`; the call reports no error
and its page has no items. -/
theorem empty_walk_writes_nil_page
    (fes : APIServer Request PKID BlockHash PostEntry PostEntryResponse UtxoView)
    (req : Request) (c : Option BlockHash) (n : Int) (view : UtxoView) (m : Bool)
    (hw : Effect.walk c n view m ∈ GetGlobalFeed fes req)
    (hzero : (fes.GetPostEntriesForGlobalWhitelist c n view m).1 = []) :
    (∃ rd, fes.decodeRequest req = .ok rd ∧
      GetGlobalFeed fes req =
        beforeWalk rd ++ [.walk c n view m, .write (.posts none) "null\n"]) ∧
    reportedError (GetGlobalFeed fes req) = false ∧
    writtenPosts (GetGlobalFeed fes req) = some [] := by
  obtain ⟨rd, -, hd, -, -, -, -, htrace⟩ := GetGlobalFeed_of_walk_mem fes req c n view m hw
  have hshape : GetGlobalFeed fes req =
      beforeWalk rd ++ [.walk c n view m, .write (.posts none) "null\n"] := by
    rw [htrace, hzero]
    simp [projectAndWrite, WriteGlobalStateDataToResponse, jsonEncode]
  refine ⟨⟨rd, hd, hshape⟩, ?_, ?_⟩
  · rw [hshape, reportedError_append, reportedError_beforeWalk]
    rfl
  · rw [hshape, writtenPosts_append_of_not_wrote _ _ (wroteData_beforeWalk rd)]
    rfl

/-- Witness of C8 as amended: the page after the last post `D` of the walk
order `[A, B, C, D]`. -/
theorem empty_walk_writes_nil_page_witness :
    (∃ rd, (Example.server Example.abcd).decodeRequest (.ok ⟨"D", 2, false⟩) = .ok rd ∧
      GetGlobalFeed (Example.server Example.abcd) (.ok ⟨"D", 2, false⟩) =
        beforeWalk rd ++ [.walk (some "D") 2 Example.abcd false,
          .write (.posts none) "null\n"]) ∧
    reportedError (GetGlobalFeed (Example.server Example.abcd) (.ok ⟨"D", 2, false⟩)) = false ∧
    writtenPosts (GetGlobalFeed (Example.server Example.abcd) (.ok ⟨"D", 2, false⟩)) =
      some [] :=
  empty_walk_writes_nil_page (Example.server Example.abcd) (.ok ⟨"D", 2, false⟩)
    (some "D") 2 Example.abcd false (by decide) (by decide)

/-- Counterexample to C8 as stated: on the example server the page after the
last post is a successful call in which the walk returns no entry, and the
value written is the nil slice, rendered `null`, while the empty non-nil
slice is a different value, rendered `[]`. -/
theorem empty_page_is_written_as_null :
    ((Example.server Example.abcd).GetPostEntriesForGlobalWhitelist (some "D") 2 Example.abcd
      false).1 = [] ∧
    GetGlobalFeed (Example.server Example.abcd) (.ok ⟨"D", 2, false⟩) =
      [.decodeBody, .decodeCursor "D", .fetchView, .walk (some "D") 2 Example.abcd false,
        .write (.posts none) "null\n"] ∧
    (Data.posts none : Data String Example.Post) ≠ Data.posts (some []) ∧
    jsonEncode (Example.server Example.abcd).json (.posts (some [])) = .ok "[]\n" := by
  refine ⟨by decide, by decide, by decide, rfl⟩

/-- Claim C10: the error returned by the walk never influences a call of
`GetGlobalFeed`: replacing the error the walk returns by any other leaves
the call unchanged, and a call whose walk fails and returns no entry writes
a page (the nil slice, `null`) and reports no error. -/
theorem walk_error_is_ignored
    (fes : APIServer Request PKID BlockHash PostEntry PostEntryResponse UtxoView)
    (req : Request) :
    (∀ walkErr : Option BlockHash → Int → UtxoView → Bool → Option String,
      GetGlobalFeed
        { fes with
          GetPostEntriesForGlobalWhitelist := fun c n v m =>
            ((fes.GetPostEntriesForGlobalWhitelist c n v m).1, walkErr c n v m) } req =
        GetGlobalFeed fes req) ∧
    (∀ c n view m err, Effect.walk c n view m ∈ GetGlobalFeed fes req →
      fes.GetPostEntriesForGlobalWhitelist c n view m = ([], some err) →
      (GetGlobalFeed fes req).getLast? = some (.write (.posts none) "null\n") ∧
      reportedError (GetGlobalFeed fes req) = false) := by
  refine ⟨?_, ?_⟩
  · intro walkErr
    apply GetGlobalFeed_congr <;> first | rfl | (intros; rfl)
  · intro c n view m err hw hwalk
    obtain ⟨rd, -, -, -, -, -, -, htrace⟩ := GetGlobalFeed_of_walk_mem fes req c n view m hw
    have hshape : GetGlobalFeed fes req =
        beforeWalk rd ++ [.walk c n view m, .write (.posts none) "null\n"] := by
      rw [htrace, hwalk]
      simp [projectAndWrite, WriteGlobalStateDataToResponse, jsonEncode]
    refine ⟨?_, ?_⟩
    · rw [hshape]
      simp
    · rw [hshape, reportedError_append, reportedError_beforeWalk]
      rfl

/-- Witness of C10: the example server whose walk fails with no entry. -/
theorem walk_error_is_ignored_witness :
    (GetGlobalFeed (Example.brokenWalkServer Example.abcd) (.ok ⟨"", 0, false⟩)).getLast? =
      some (.write (.posts none) "null\n") ∧
    reportedError (GetGlobalFeed (Example.brokenWalkServer Example.abcd)
      (.ok ⟨"", 0, false⟩)) = false :=
  (walk_error_is_ignored (Example.brokenWalkServer Example.abcd) (.ok ⟨"", 0, false⟩)).2
    none 50 Example.abcd false "walk failed" (by decide) rfl

/-! ## The moderation lists -/

/-- Claim C9: for every moderation map `m` (nil and empty included) whose
keys the encoder maps injectively, `makeMapJSONEncodable` returns a non-nil
map with as many entries as `m` and one entry per key, in which the encoded
string of every key `k` of `m` maps to the payload `m[k]`, and which has no
other entry; for a map without entries the result is the empty non-nil
map. -/
theorem makeMapJSONEncodable_entries
    (fes : APIServer Request PKID BlockHash PostEntry PostEntryResponse UtxoView)
    (m : GoMap PKID Bytes)
    (hkeys : ((goRange m).map Prod.fst).Nodup)
    (hinj : ∀ k ∈ (goRange m).map Prod.fst, ∀ k' ∈ (goRange m).map Prod.fst,
      fes.PkToString k = fes.PkToString k' → k = k') :
    makeMapJSONEncodable fes m ≠ none ∧
    goMapLen (makeMapJSONEncodable fes m) = goMapLen m ∧
    ((goRange (makeMapJSONEncodable fes m)).map Prod.fst).Nodup ∧
    (∀ k v, (k, v) ∈ goRange m →
      goMapGet (makeMapJSONEncodable fes m) (fes.PkToString k) = some v) ∧
    (∀ s v, (s, v) ∈ goRange (makeMapJSONEncodable fes m) →
      ∃ k, (k, v) ∈ goRange m ∧ s = fes.PkToString k) ∧
    (goRange m = [] → makeMapJSONEncodable fes m = some []) := by
  obtain ⟨hnd, hout⟩ := makeMapJSONEncodable_eq fes m hkeys hinj
  have hnd' : (((goRange m).map (fun kv => (fes.PkToString kv.1, kv.2))).map Prod.fst).Nodup := by
    simpa [List.map_map, Function.comp_def] using hnd
  refine ⟨by simp [hout], by simp [hout, goMapLen, goRange], ?_, ?_, ?_, ?_⟩
  · simpa [hout, goRange] using hnd'
  · intro k v hkv
    rw [hout]
    exact find?_of_mem_of_nodup _ hnd' _ _ (List.mem_map.2 ⟨(k, v), hkv, rfl⟩)
  · intro s v hsv
    rw [hout] at hsv
    obtain ⟨kv, hkv, heq⟩ := List.mem_map.1 hsv
    cases heq
    exact ⟨kv.1, hkv, rfl⟩
  · intro hempty
    rw [hout, hempty]
    rfl

/-- Witness of C9: the blacklist of the example server, two keys. -/
theorem makeMapJSONEncodable_entries_witness :
    makeMapJSONEncodable (Example.server Example.abcd)
      (Example.server Example.abcd).BlacklistedPKIDMap ≠ none ∧
    goMapLen (makeMapJSONEncodable (Example.server Example.abcd)
      (Example.server Example.abcd).BlacklistedPKIDMap) =
      goMapLen (Example.server Example.abcd).BlacklistedPKIDMap ∧
    ((goRange (makeMapJSONEncodable (Example.server Example.abcd)
      (Example.server Example.abcd).BlacklistedPKIDMap)).map Prod.fst).Nodup ∧
    (∀ k v, (k, v) ∈ goRange (Example.server Example.abcd).BlacklistedPKIDMap →
      goMapGet (makeMapJSONEncodable (Example.server Example.abcd)
        (Example.server Example.abcd).BlacklistedPKIDMap)
        ((Example.server Example.abcd).PkToString k) = some v) ∧
    (∀ s v, (s, v) ∈ goRange (makeMapJSONEncodable (Example.server Example.abcd)
        (Example.server Example.abcd).BlacklistedPKIDMap) →
      ∃ k, (k, v) ∈ goRange (Example.server Example.abcd).BlacklistedPKIDMap ∧
        s = (Example.server Example.abcd).PkToString k) ∧
    (goRange (Example.server Example.abcd).BlacklistedPKIDMap = [] →
      makeMapJSONEncodable (Example.server Example.abcd)
        (Example.server Example.abcd).BlacklistedPKIDMap = some []) :=
  makeMapJSONEncodable_entries (Example.server Example.abcd)
    (Example.server Example.abcd).BlacklistedPKIDMap (by decide) (by decide)

end Theorems

end Routes
